import Mathlib

/-!
Verification of the resilient market-data acquisition pipeline of the
`future-tool` dashboard: the indicator engine (`indicatorService.ts`),
the proxy-rotating fetcher (`fetchWithRetry` in `marketService.ts`)
and the snapshot assembler (`getFullMarketSnapshot`).

Exact numeric code (additions, multiplications, divisions, comparisons)
is embedded over `ℚ`; the single square root of the Bollinger bands is
taken in `ℝ`.  JavaScript division by zero at junk inputs is modelled
by `ℚ`'s total division (`x / 0 = 0`); all theorems below carry the
hypotheses that keep the modelled runs away from those junk regions.
-/

namespace FutureTool

/-! ## Indicator engine (`src/services/indicatorService.ts`) -/

/-- `calculateEMA` from `indicatorService.ts`:
if `data.length < period` return `data[data.length - 1]`, otherwise fold
`ema = data[i] * k + ema * (1 - k)` with `k = 2 / (period + 1)` over the
whole series, seeded with `data[0]`.  Out-of-range JS indexing on an
empty array is modelled by the default value `0`. -/
def calculateEMA (data : List ℚ) (period : ℕ) : ℚ :=
  if data.length < period then data.getLastD 0
  else
    let k : ℚ := 2 / (period + 1)
    data.tail.foldl (fun ema x => x * k + ema * (1 - k)) (data.headD 0)

/-- Consecutive differences `data[i] - data[i-1]` of a series. -/
def diffs : List ℚ → List ℚ
  | a :: b :: rest => (b - a) :: diffs (b :: rest)
  | _ => []

/-- One iteration of the RSI gain/loss loop:
`if (diff >= 0) gains += diff; else losses -= diff`. -/
def rsiStep (gl : ℚ × ℚ) (d : ℚ) : ℚ × ℚ :=
  if 0 ≤ d then (gl.1 + d, gl.2) else (gl.1, gl.2 - d)

/-- The `(gains, losses)` accumulated by `calculateRSI`'s loop over a
list of differences. -/
def gainsLosses (l : List ℚ) : ℚ × ℚ :=
  l.foldl rsiStep (0, 0)

/-- The trailing window of `calculateRSI`: the last `period + 1`
elements of the series, whose consecutive differences are exactly the
`diff`s the source loop visits (`i` from `data.length - period` to
`data.length - 1`). -/
def rsiWindow (data : List ℚ) (period : ℕ) : List ℚ :=
  data.drop (data.length - (period + 1))

/-- `calculateRSI` from `indicatorService.ts`. -/
def calculateRSI (data : List ℚ) (period : ℕ) : ℚ :=
  if data.length < period + 1 then 50
  else
    let gl := gainsLosses (diffs (rsiWindow data period))
    let avgGain := gl.1 / (period : ℚ)
    let avgLoss := gl.2 / (period : ℚ)
    if avgLoss = 0 then 100
    else
      let rs := avgGain / avgLoss
      100 - 100 / (1 + rs)

/-- Result record of `calculateMACD`. -/
structure MacdResult where
  macd : ℚ
  signal : ℚ
  histogram : ℚ
  deriving DecidableEq, Repr

/-- `calculateMACD` from `indicatorService.ts`: MACD line is
`EMA(data,12) - EMA(data,26)`, the signal line is `macdLine * 0.9`
(documented simplification), histogram is their difference. -/
def calculateMACD (data : List ℚ) : MacdResult :=
  let ema12 := calculateEMA data 12
  let ema26 := calculateEMA data 26
  let macdLine := ema12 - ema26
  let signalLine := macdLine * (9 / 10)
  { macd := macdLine
    signal := signalLine
    histogram := macdLine - signalLine }

/-- JavaScript `data.slice(-period)`: the trailing `period` elements,
except that `slice(-0)` is `slice(0)`, i.e. the whole array. -/
def sliceLast (period : ℕ) (data : List ℚ) : List ℚ :=
  if period = 0 then data else data.drop (data.length - period)

/-- Result record of `calculateBollinger` (the square root lives in `ℝ`). -/
structure BollingerBands where
  upper : ℝ
  middle : ℝ
  lower : ℝ

/-- `calculateBollinger` from `indicatorService.ts`: `lastN` is
`data.slice(-period)`, `mean` is `sum(lastN) / period` (dividing by the
`period` argument, not by `lastN.length`), `stdDev` is
`sqrt(sum((x - mean)^2) / period)`, bands at `mean ± stdDev * 2`. -/
noncomputable def calculateBollinger (data : List ℚ) (period : ℕ) : BollingerBands :=
  let lastN := sliceLast period data
  let mean : ℚ := lastN.sum / (period : ℚ)
  let variance : ℚ := (lastN.map (fun x => (x - mean) ^ 2)).sum / (period : ℚ)
  let stdDev : ℝ := Real.sqrt (variance : ℝ)
  { upper := (mean : ℝ) + stdDev * 2
    middle := (mean : ℝ)
    lower := (mean : ℝ) - stdDev * 2 }

/-! ## JavaScript value model and upstream payload normalization -/

/-- Parsed JSON values as seen by the pipeline, plus `undefined` for
JavaScript's `undefined` (out-of-range indexing, missing fields). -/
inductive JsVal where
  | undefined
  | num (q : ℚ)
  | str (s : String)
  | arr (elems : List JsVal)
  | obj (fields : List (String × JsVal))

/-- Parse a maximal leading run of decimal digits, returning the
accumulated value and the remaining characters. -/
def parseNatAux : List Char → ℕ → ℕ × List Char
  | c :: rest, acc =>
      if c.isDigit then parseNatAux rest (acc * 10 + (c.toNat - 48))
      else (acc, c :: rest)
  | [], acc => (acc, [])

/-- Decimal-string fragment of JavaScript `parseFloat`, sufficient for
the exchange's candle fields: an optional leading digits run followed
by an optional `.` and fractional digits.  Returns `none` where
`parseFloat` would return `NaN`. -/
def parseDecimal (s : String) : Option ℚ :=
  match s.toList with
  | [] => none
  | c :: cs =>
      if c.isDigit then
        let ip := parseNatAux (c :: cs) 0
        match ip.2 with
        | dot :: frac =>
            if dot = '.' then
              let fp := parseNatAux frac 0
              some ((ip.1 : ℚ) + (fp.1 : ℚ) / (10 : ℚ) ^ (frac.length - fp.2.length))
            else some (ip.1 : ℚ)
        | [] => some (ip.1 : ℚ)
      else none

/-- JavaScript `parseFloat` applied to a parsed JSON value.  `NaN`
outcomes (undefined, non-numeric strings, arrays, objects) are modelled
by `0`; no theorem below depends on values in that junk region. -/
def jsParseFloat : JsVal → ℚ
  | .num q => q
  | .str s => (parseDecimal s).getD 0
  | _ => 0

/-- JavaScript `parseInt` applied to a parsed JSON value: numbers are
stringified and re-parsed, which truncates them to integers; strings
keep their leading digit run.  `NaN` outcomes are modelled by `0`. -/
def jsParseInt : JsVal → ℤ
  | .num q => ⌊q⌋
  | .str s =>
      match s.toList with
      | c :: cs => if c.isDigit then ((parseNatAux (c :: cs) 0).1 : ℤ) else 0
      | [] => 0
  | _ => 0

/-- JavaScript indexing `v[i]`: element of an array, `undefined`
otherwise. -/
def jsIndex (v : JsVal) (i : ℕ) : JsVal :=
  match v with
  | .arr l => l.getD i .undefined
  | _ => .undefined

/-- JavaScript property access `v.k` on a value that is not
`undefined`: field of an object, `undefined` otherwise. -/
def jsGet (v : JsVal) (k : String) : JsVal :=
  match v with
  | .obj fields => ((fields.find? (fun f => f.1 = k)).map Prod.snd).getD .undefined
  | _ => .undefined

/-- A normalized candle record (`Kline` in `types.ts`). -/
structure Kline where
  timestamp : ℤ
  «open» : ℚ
  high : ℚ
  low : ℚ
  close : ℚ
  volume : ℚ
  deriving DecidableEq, Repr

/-- Normalization of one raw candle row, from `getFullMarketSnapshot`
(`marketService.ts`): `timestamp: parseInt(d[0])`, numeric fields via
`parseFloat(d[1..5])`. -/
def normalizeKline (d : JsVal) : Kline :=
  { timestamp := jsParseInt (jsIndex d 0)
    «open» := jsParseFloat (jsIndex d 1)
    high := jsParseFloat (jsIndex d 2)
    low := jsParseFloat (jsIndex d 3)
    close := jsParseFloat (jsIndex d 4)
    volume := jsParseFloat (jsIndex d 5) }

/-- `getIndicators` from `indicatorService.ts`: extract closes, apply
the four indicator functions at their default periods. -/
structure Indicators where
  rsi : ℚ
  ema20 : ℚ
  ema50 : ℚ
  macd : MacdResult
  bollinger : BollingerBands

/-- `getIndicators` from `indicatorService.ts`. -/
noncomputable def getIndicators (klines : List Kline) : Indicators :=
  let closes := klines.map (·.close)
  { rsi := calculateRSI closes 14
    ema20 := calculateEMA closes 20
    ema50 := calculateEMA closes 50
    macd := calculateMACD closes
    bollinger := calculateBollinger closes 20 }

/-! ## Proxy-rotating fetcher (`fetchWithRetry` in `marketService.ts`) -/

/-- The configured relay list of `marketService.ts`. -/
def CORS_PROXIES : List String :=
  ["https://api.allorigins.win/raw?url=",
   "https://corsproxy.io/?",
   "https://api.codetabs.com/v1/proxy?quest="]

/-- The upstream REST base of `marketService.ts`. -/
def OKX_BASE : String := "https://www.okx.com/api/v5/market"

/-- Hexadecimal digit character for a value below 16. -/
def hexDigitChar (n : ℕ) : Char :=
  if n < 10 then Char.ofNat (48 + n) else Char.ofNat (55 + n)

/-- UTF-8 bytes of a character, for percent-encoding. -/
def utf8Bytes (c : Char) : List ℕ :=
  let n := c.toNat
  if n < 128 then [n]
  else if n < 2048 then [192 + n / 64, 128 + n % 64]
  else if n < 65536 then [224 + n / 4096, 128 + n / 64 % 64, 128 + n % 64]
  else [240 + n / 262144, 128 + n / 4096 % 64, 128 + n / 64 % 64, 128 + n % 64]

/-- Characters `encodeURIComponent` leaves unescaped. -/
def isUnreservedURIChar (c : Char) : Bool :=
  c.isAlphanum || c ∈ ['-', '_', '.', '!', '~', '*', Char.ofNat 39, '(', ')']

/-- JavaScript `encodeURIComponent`: percent-encode the UTF-8 bytes of
every reserved character. -/
def encodeURIComponent (s : String) : String :=
  String.mk ((s.toList.map fun c =>
    if isUnreservedURIChar c then [c]
    else ((utf8Bytes c).map fun b => ['%', hexDigitChar (b / 16), hexDigitChar (b % 16)]).flatten).flatten)

/-- Outcome of one relayed HTTP GET as the fetcher observes it:
either the request itself failed (network error, or the 12s abort
timer fired), or a response arrived with its `ok` flag, status code
and the JSON-parse outcome of its body text (`none` -- not valid JSON). -/
inductive HttpOutcome where
  | netFail (e : String)
  | resp (ok : Bool) (status : ℕ) (body : Option JsVal)

/-- Rendering of a JSON value inside an error message (only the shape
of the resulting error matters to the theorems). -/
def jsDisplay : JsVal → String
  | .undefined => "undefined"
  | .num q => toString q
  | .str s => s
  | .arr _ => "[array]"
  | .obj _ => "[object]"

/-- The request URL of attempt `i`:
`CORS_PROXIES[i % CORS_PROXIES.length] + encodeURIComponent(targetUrl)`. -/
def attemptUrl (targetUrl : String) (attempt : ℕ) : String :=
  CORS_PROXIES.getD (attempt % CORS_PROXIES.length) "" ++ encodeURIComponent targetUrl

/-- The body of one iteration of `fetchWithRetry`'s loop: issue the GET
through the relay chosen for this attempt, reject non-`ok` statuses,
reject bodies that are not valid JSON, reject payloads whose `code`
field is not the string `"0"`, and otherwise return the payload's
`data` field. -/
def tryAttempt (http : String → HttpOutcome) (targetUrl : String) (attempt : ℕ) :
    Except String JsVal :=
  match http (attemptUrl targetUrl attempt) with
  | .netFail e => .error e
  | .resp ok status body =>
      if !ok then .error ("代理/API 返回错误状态: " ++ toString status)
      else
        match body with
        | none => .error "返回内容非合法 JSON (可能是代理拦截)"
        | some data =>
            match jsGet data "code" with
            | .str c =>
                if c = "0" then .ok (jsGet data "data")
                else .error ("OKX API 错误: " ++ jsDisplay (jsGet data "msg"))
            | _ => .error ("OKX API 错误: " ++ jsDisplay (jsGet data "msg"))

/-- The retry loop of `fetchWithRetry`, with the list of request URLs
it issued alongside the result: run attempts starting at index
`attempt` while `fuel` attempts remain, remembering the last error;
once attempts are exhausted, fail with the last error. -/
def fetchLoop (http : String → HttpOutcome) (targetUrl : String) :
    ℕ → ℕ → String → List String × Except String JsVal
  | _, 0, lastError => ([], .error lastError)
  | attempt, fuel + 1, _ =>
      match tryAttempt http targetUrl attempt with
      | .ok v => ([attemptUrl targetUrl attempt], .ok v)
      | .error e =>
          let rest := fetchLoop http targetUrl (attempt + 1) fuel e
          (attemptUrl targetUrl attempt :: rest.1, rest.2)

/-- `fetchWithRetry` from `marketService.ts`, instrumented with the
trace of issued request URLs: the loop runs attempts `0` through
`retryCount` inclusive (`retryCount + 1` units of fuel) against
`OKX_BASE + path`, with `lastError` initially `null`. -/
def fetchWithRetry (http : String → HttpOutcome) (path : String) (retryCount : ℕ) :
    List String × Except String JsVal :=
  fetchLoop http (OKX_BASE ++ path) 0 (retryCount + 1) "null"

/-! ## Snapshot assembler (`getFullMarketSnapshot` in `marketService.ts`) -/

/-- `mapInterval` from `marketService.ts`. -/
def mapInterval (tf : String) : String :=
  match tf with
  | "15m" => "15m"
  | "1h" => "1H"
  | "4h" => "4H"
  | "1d" => "1Dutc"
  | _ => "1H"

/-- JavaScript truthiness, for `x || y` defaults. -/
def jsTruthy : JsVal → Bool
  | .undefined => false
  | .num q => q != 0
  | .str s => s != ""
  | .arr _ => true
  | .obj _ => true

/-- JavaScript `a || b`. -/
def jsOr (a b : JsVal) : JsVal := if jsTruthy a then a else b

/-- Order book as returned by the assembler: `books[0]?.bids || []` and
`books[0]?.asks || []`, kept as raw values (the source only casts). -/
structure OrderBook where
  bids : JsVal
  asks : JsVal

/-- Per-timeframe snapshot (`MarketSnapshot` in `types.ts`). -/
structure MarketSnapshot where
  timeframe : String
  price : ℚ
  kline : List Kline
  indicators : Indicators

/-- Heuristic flow decomposition (`InflowOutflow` in `types.ts`). -/
structure InflowOutflow where
  netInflow : ℚ
  buyVolume : ℚ
  sellVolume : ℚ
  deriving DecidableEq, Repr

/-- The complete aggregate (`FullMarketData` in `types.ts`). -/
structure FullMarketData where
  snapshots : List MarketSnapshot
  orderBook : OrderBook
  inflow : InflowOutflow
  timestamp : ℤ

/-- The flow-estimate computation shared by `getFullMarketSnapshot`
(`marketService.ts`) and `fetchAggregatedInflow` (the Binance variant):
`buyRatio = 0.5 + priceChange / 100`, clamped by
`Math.min(Math.max(buyRatio, 0.3), 0.7)`, then
`buyVol = totalVol * clamped`, `sellVol = totalVol - buyVol`,
`netInflow = buyVol - sellVol`. -/
def aggregatedInflow (totalVol priceChange : ℚ) : InflowOutflow :=
  let buyRatio := 1 / 2 + priceChange / 100
  let buyVol := totalVol * min (max buyRatio (3 / 10)) (7 / 10)
  let sellVol := totalVol - buyVol
  { netInflow := buyVol - sellVol
    buyVolume := buyVol
    sellVolume := sellVol }

/-- Candle endpoint path for one timeframe. -/
def candlesPath (symbol tf : String) : String :=
  "/candles?instId=" ++ symbol ++ "&bar=" ++ mapInterval tf ++ "&limit=100"

/-- The candle-fetch loop of `getFullMarketSnapshot`, over the oracle
`fetchR` that maps an endpoint path to the outcome of its
`fetchWithRetry` call: for each timeframe in order, fetch the rows,
reject non-array payloads, normalize and reverse the rows (the
exchange returns newest-first), read the latest close (a JS `TypeError`
on an empty series, caught and re-thrown by the surrounding handler),
and emit the snapshot.  The first failure aborts the remaining
timeframes. -/
noncomputable def buildSnapshots (fetchR : String → Except String JsVal) (symbol : String) :
    List String → Except String (List MarketSnapshot)
  | [] => .ok []
  | tf :: rest =>
      match fetchR (candlesPath symbol tf) with
      | .error e => .error e
      | .ok (.arr rows) =>
          let klines := (rows.map normalizeKline).reverse
          match klines.getLast? with
          | none => .error "TypeError: cannot read properties of undefined"
          | some lastK =>
              match buildSnapshots fetchR symbol rest with
              | .error e => .error e
              | .ok restSnaps =>
                  .ok ({ timeframe := tf, price := lastK.close, kline := klines,
                         indicators := getIndicators klines } :: restSnaps)
      | .ok _ => .error (tf ++ " 周期数据格式非法")

/-- `getFullMarketSnapshot` from `marketService.ts`, over the oracle
`fetchR` for its `fetchWithRetry` sub-calls and the clock value `now`
for `Date.now()`: fetch the four timeframes in order, then the order
book, then the 24h ticker; derive the flow estimate and assemble the
aggregate.  The surrounding `try/catch` only logs and re-throws, so the
`Except` propagation models it exactly. -/
noncomputable def getFullMarketSnapshot (fetchR : String → Except String JsVal)
    (symbol : String) (now : ℤ) : Except String FullMarketData :=
  match buildSnapshots fetchR symbol ["15m", "1h", "4h", "1d"] with
  | .error e => .error e
  | .ok snapshots =>
      match fetchR ("/books?instId=" ++ symbol ++ "&sz=20") with
      | .error e => .error e
      | .ok books =>
          let orderBook : OrderBook :=
            { bids := jsOr (jsGet (jsIndex books 0) "bids") (.arr [])
              asks := jsOr (jsGet (jsIndex books 0) "asks") (.arr []) }
          match fetchR ("/ticker?instId=" ++ symbol) with
          | .error e => .error e
          | .ok tickerArr =>
              match jsIndex tickerArr 0 with
              | .undefined => .error "TypeError: cannot read properties of undefined"
              | ticker =>
                  let vol24h := jsParseFloat (jsOr (jsGet ticker "vol24h") (.num 0))
                  let open24h := jsParseFloat (jsOr (jsGet ticker "open24h") (.num 0))
                  let last := jsParseFloat (jsOr (jsGet ticker "last") (.num 0))
                  let priceChange :=
                    if 0 < open24h then (last - open24h) / open24h * 100 else 0
                  .ok { snapshots := snapshots
                        orderBook := orderBook
                        inflow := aggregatedInflow vol24h priceChange
                        timestamp := now }

/-! ## Theorems -/

/-- C1: for every 24h ticker input with total volume `V` and percentage
price change `p`, the flow estimate uses the ratio `0.5 + p/100` clamped
to `[0.3, 0.7]`, `buyVolume = V * clampedRatio`,
`sellVolume = V - buyVolume`, so `buyVolume + sellVolume = V` exactly;
`p = 0` gives `buyVolume = sellVolume = V/2` and `netInflow = 0`, and
`p = 50` with `V = 1000` gives `buyVolume = 700`, `sellVolume = 300`,
`netInflow = 400`. -/
theorem flow_estimate_correct :
    (∀ V p : ℚ,
        (aggregatedInflow V p).buyVolume
          = V * min (max (1 / 2 + p / 100) (3 / 10)) (7 / 10) ∧
        (aggregatedInflow V p).sellVolume = V - (aggregatedInflow V p).buyVolume ∧
        (aggregatedInflow V p).buyVolume + (aggregatedInflow V p).sellVolume = V) ∧
    (∀ V : ℚ,
        (aggregatedInflow V 0).buyVolume = V / 2 ∧
        (aggregatedInflow V 0).sellVolume = V / 2 ∧
        (aggregatedInflow V 0).netInflow = 0) ∧
    aggregatedInflow 1000 50 =
      { netInflow := 400, buyVolume := 700, sellVolume := 300 } := by
  refine ⟨fun V p => ⟨rfl, rfl, by simp [aggregatedInflow]⟩, fun V => ?_, ?_⟩
  · have hclamp : min (max (1 / 2 + (0 : ℚ) / 100) (3 / 10)) (7 / 10) = 1 / 2 := by
      rw [show (1 / 2 + (0 : ℚ) / 100) = 1 / 2 by norm_num,
        max_eq_left (by norm_num), min_eq_left (by norm_num)]
    refine ⟨?_, ?_, ?_⟩ <;> simp only [aggregatedInflow, hclamp] <;> ring
  · have hclamp : min (max (1 / 2 + (50 : ℚ) / 100) (3 / 10)) (7 / 10) = 7 / 10 := by
      rw [show (1 / 2 + (50 : ℚ) / 100) = 1 by norm_num,
        max_eq_left (by norm_num), min_eq_right (by norm_num)]
    simp only [aggregatedInflow, hclamp]
    norm_num

/-- C10: for every ticker input with total volume `V ≥ 0`, the flow
estimate satisfies `netInflow = buyVolume - sellVolume` and
`|netInflow| ≤ 0.4 * V`, the bound induced by the `[0.3, 0.7]` clamp. -/
theorem flow_net_inflow_bounded (V p : ℚ) (hV : 0 ≤ V) :
    (aggregatedInflow V p).netInflow
      = (aggregatedInflow V p).buyVolume - (aggregatedInflow V p).sellVolume ∧
    |(aggregatedInflow V p).netInflow| ≤ (2 / 5) * V := by
  refine ⟨rfl, ?_⟩
  set c := min (max (1 / 2 + p / 100) (3 / 10)) (7 / 10) with hc
  have h1 : (3 : ℚ) / 10 ≤ c := le_min (le_max_right _ _) (by norm_num)
  have h2 : c ≤ 7 / 10 := min_le_right _ _
  have hlo := mul_le_mul_of_nonneg_left h1 hV
  have hhi := mul_le_mul_of_nonneg_left h2 hV
  have : (aggregatedInflow V p).netInflow = V * c - (V - V * c) := rfl
  rw [this, abs_le]
  constructor <;> nlinarith

/-- Witness for `flow_net_inflow_bounded` at `V = 1000`, `p = 50`. -/
theorem flow_net_inflow_bounded_witness :
    (0 : ℚ) ≤ 1000 ∧
    ((aggregatedInflow 1000 50).netInflow
        = (aggregatedInflow 1000 50).buyVolume - (aggregatedInflow 1000 50).sellVolume ∧
      |(aggregatedInflow 1000 50).netInflow| ≤ (2 / 5) * 1000) :=
  ⟨by norm_num, flow_net_inflow_bounded 1000 50 (by norm_num)⟩

/-- C8: for every (non-empty) numeric series, `calculateMACD` returns
`macd = EMA(S,12) - EMA(S,26)`, `signal = 0.9 * macd` and
`histogram = macd - signal`. -/
theorem macd_relations (data : List ℚ) (_h : data ≠ []) :
    (calculateMACD data).macd = calculateEMA data 12 - calculateEMA data 26 ∧
    (calculateMACD data).signal = (9 / 10) * (calculateMACD data).macd ∧
    (calculateMACD data).histogram
      = (calculateMACD data).macd - (calculateMACD data).signal :=
  ⟨rfl, by simp only [calculateMACD]; ring, rfl⟩

/-- Witness for `macd_relations` on the one-element series `[1]`. -/
theorem macd_relations_witness :
    ([(1 : ℚ)] ≠ []) ∧
    ((calculateMACD [1]).macd = calculateEMA [1] 12 - calculateEMA [1] 26 ∧
      (calculateMACD [1]).signal = (9 / 10) * (calculateMACD [1]).macd ∧
      (calculateMACD [1]).histogram
        = (calculateMACD [1]).macd - (calculateMACD [1]).signal) :=
  ⟨by simp, macd_relations [1] (by simp)⟩

/-- C9: normalizing the raw candle row
`[1700000000000, "100.0", "105.0", "95.0", "102.0", "10.5"]` yields
the candle `{timestamp := 1700000000000, open := 100, high := 105,
low := 95, close := 102, volume := 10.5}`: string fields are parsed to
numbers and the integer timestamp is preserved. -/
theorem candle_normalization_roundtrip :
    normalizeKline (.arr [.num 1700000000000, .str "100.0", .str "105.0",
        .str "95.0", .str "102.0", .str "10.5"]) =
      { timestamp := 1700000000000, «open» := 100, high := 105, low := 95,
        close := 102, volume := 21 / 2 } := by
  simp +decide [normalizeKline, jsIndex, jsParseFloat, jsParseInt, parseDecimal,
    parseNatAux, Kline.mk.injEq]
  norm_num

/-- C6: for every non-empty series and period, `calculateEMA` returns
the last element when the series is shorter than the period, and
otherwise the left-to-right fold over the entire series seeded with the
first element, stepping `ema ← x*k + ema*(1-k)` with `k = 2/(period+1)`. -/
theorem ema_definition (data : List ℚ) (h : data ≠ []) (period : ℕ) :
    (data.length < period → calculateEMA data period = data.getLast h) ∧
    (period ≤ data.length →
      calculateEMA data period
        = data.tail.foldl
            (fun ema x => x * (2 / ((period : ℚ) + 1)) + ema * (1 - 2 / ((period : ℚ) + 1)))
            (data.head h)) := by
  constructor
  · intro hlt
    rw [calculateEMA, if_pos hlt, List.getLastD_eq_getLast?,
      List.getLast?_eq_getLast data h, Option.getD_some]
  · intro hge
    rw [calculateEMA, if_neg (not_lt.mpr hge)]
    cases data with
    | nil => exact absurd rfl h
    | cons a l => rfl

/-- Witness for `ema_definition` on `[1, 2]` with period `3` (short
series) -- both hypotheses of the conjuncts are exercised via the claim
instance with period `1` as well. -/
theorem ema_definition_witness :
    (([(1 : ℚ), 2] : List ℚ) ≠ []) ∧
    ((([(1 : ℚ), 2] : List ℚ).length < 3 →
        calculateEMA [1, 2] 3 = ([(1 : ℚ), 2]).getLast (by simp)) ∧
      (3 ≤ ([(1 : ℚ), 2] : List ℚ).length →
        calculateEMA [1, 2] 3
          = ([(1 : ℚ), 2]).tail.foldl
              (fun ema x => x * (2 / ((3 : ℕ) + 1 : ℚ)) + ema * (1 - 2 / ((3 : ℕ) + 1 : ℚ)))
              (([(1 : ℚ), 2]).head (by simp)))) :=
  ⟨by simp, ema_definition [1, 2] (by simp) 3⟩

/-- Counterexample to C5 as stated: at period `P = 0` (allowed by the
claim's "for all period P", and satisfying `len(S) ≥ P` for
`S = [0, 10]`) the smoothing factor is `2/(0+1) = 2` and the fold
overshoots: `calculateEMA [0, 10] 0 = 20 ∉ [min S, max S] = [0, 10]`. -/
theorem ema_range_counterexample :
    0 ≤ ([(0 : ℚ), 10] : List ℚ).length ∧
    calculateEMA [0, 10] 0 = 20 ∧
    calculateEMA [0, 10] 0 ∉ Set.Icc (0 : ℚ) 10 := by
  refine ⟨by simp, ?_, ?_⟩ <;> norm_num [calculateEMA]

/-- Lower/upper bounds are preserved by the EMA fold when the smoothing
factor lies in `[0, 1]`. -/
theorem ema_fold_bounds (k lo hi : ℚ) (hk0 : 0 ≤ k) (hk1 : k ≤ 1) :
    ∀ (l : List ℚ) (init : ℚ), lo ≤ init → init ≤ hi →
      (∀ x ∈ l, lo ≤ x ∧ x ≤ hi) →
      lo ≤ l.foldl (fun ema x => x * k + ema * (1 - k)) init ∧
        l.foldl (fun ema x => x * k + ema * (1 - k)) init ≤ hi := by
  intro l
  induction l with
  | nil => intro init h1 h2 _; exact ⟨h1, h2⟩
  | cons x xs ih =>
      intro init h1 h2 hmem
      have hx := hmem x (by simp)
      refine ih (x * k + init * (1 - k)) ?_ ?_ (fun y hy => hmem y (by simp [hy]))
      · nlinarith [hx.1]
      · nlinarith [hx.2]

/-- C5 amended: for every period `P ≥ 1` and series `S` with
`len(S) ≥ P`, `calculateEMA S P` lies within every interval `[lo, hi]`
containing all of `S` -- in particular within `[min S, max S]`. -/
theorem ema_range_amended (data : List ℚ) (period : ℕ) (hp : 1 ≤ period)
    (hlen : period ≤ data.length) (lo hi : ℚ)
    (hlo : ∀ x ∈ data, lo ≤ x) (hhi : ∀ x ∈ data, x ≤ hi) :
    lo ≤ calculateEMA data period ∧ calculateEMA data period ≤ hi := by
  have hk0 : (0 : ℚ) ≤ 2 / ((period : ℚ) + 1) := by positivity
  have hk1 : 2 / ((period : ℚ) + 1) ≤ 1 := by
    rw [div_le_one (by positivity)]
    have : (1 : ℚ) ≤ (period : ℚ) := by exact_mod_cast hp
    linarith
  rw [calculateEMA, if_neg (not_lt.mpr hlen)]
  cases data with
  | nil => simp at hlen; omega
  | cons a l =>
      exact ema_fold_bounds _ lo hi hk0 hk1 l a
        (hlo a (by simp)) (hhi a (by simp))
        (fun y hy => ⟨hlo y (by simp [hy]), hhi y (by simp [hy])⟩)

/-- Witness for `ema_range_amended` on `S = [1, 3, 2]`, `P = 2`,
bounds `[1, 3]`. -/
theorem ema_range_amended_witness :
    (1 ≤ 2 ∧ 2 ≤ ([(1 : ℚ), 3, 2] : List ℚ).length ∧
      (∀ x ∈ ([(1 : ℚ), 3, 2] : List ℚ), 1 ≤ x) ∧
      (∀ x ∈ ([(1 : ℚ), 3, 2] : List ℚ), x ≤ 3)) ∧
    (1 ≤ calculateEMA [1, 3, 2] 2 ∧ calculateEMA [1, 3, 2] 2 ≤ 3) := by
  have hlo : ∀ x ∈ ([(1 : ℚ), 3, 2] : List ℚ), 1 ≤ x := by
    intro x hx
    simp only [List.mem_cons, List.not_mem_nil, or_false] at hx
    rcases hx with h | h | h <;> norm_num [h]
  have hhi : ∀ x ∈ ([(1 : ℚ), 3, 2] : List ℚ), x ≤ 3 := by
    intro x hx
    simp only [List.mem_cons, List.not_mem_nil, or_false] at hx
    rcases hx with h | h | h <;> norm_num [h]
  exact ⟨⟨by norm_num, by simp, hlo, hhi⟩,
    ema_range_amended [1, 3, 2] 2 (by norm_num) (by simp) 1 3 hlo hhi⟩

/-- Spec-side notion for C7: the trailing `period` points of a series. -/
def trailing (period : ℕ) (data : List ℚ) : List ℚ :=
  data.drop (data.length - period)

/-- Spec-side notion for C7: the arithmetic mean of a list (sum divided
by the number of its own elements). -/
def listMean (l : List ℚ) : ℚ := l.sum / (l.length : ℚ)

/-- Spec-side notion for C7: the population standard deviation of a
list. -/
noncomputable def popStdDev (l : List ℚ) : ℝ :=
  Real.sqrt ((((l.map (fun x => (x - listMean l) ^ 2)).sum / (l.length : ℚ) : ℚ) : ℝ))

/-- Counterexample to C7 as stated: the claim quantifies over every
non-empty series, but for a series shorter than the period the code
divides by `period` rather than by the number of trailing points:
`calculateBollinger [10] 20` has middle `10/20 = 1/2`, while the
arithmetic mean of the trailing points of `[10]` is `10`. -/
theorem bollinger_counterexample :
    (calculateBollinger [10] 20).middle = 1 / 2 ∧
    ((1 : ℝ) / 2) ≠ listMean (trailing 20 [10]) ∧
    listMean (trailing 20 [10]) = 10 := by
  refine ⟨?_, ?_, ?_⟩
  · show (((List.sum (sliceLast 20 [10]) / (20 : ℚ)) : ℚ) : ℝ) = 1 / 2
    norm_num [sliceLast]
  · norm_num [listMean, trailing]
  · norm_num [listMean, trailing]

/-- C7 amended: for every period `P ≥ 1` and series `S` with
`len(S) ≥ P`, `calculateBollinger S P` has middle equal to the
arithmetic mean of the trailing `P` points, and bands
`middle ± 2 * σ` for `σ` the population standard deviation of those
trailing points. -/
theorem bollinger_amended (data : List ℚ) (period : ℕ) (hp : 1 ≤ period)
    (hlen : period ≤ data.length) :
    (calculateBollinger data period).middle = ((listMean (trailing period data) : ℚ) : ℝ) ∧
    (calculateBollinger data period).upper
      = (calculateBollinger data period).middle + 2 * popStdDev (trailing period data) ∧
    (calculateBollinger data period).lower
      = (calculateBollinger data period).middle - 2 * popStdDev (trailing period data) := by
  have hslice : sliceLast period data = trailing period data := by
    rw [sliceLast, if_neg (by omega), trailing]
  have hlength : (trailing period data).length = period := by
    rw [trailing, List.length_drop]
    omega
  have hmean : (trailing period data).sum / ((period : ℕ) : ℚ) = listMean (trailing period data) := by
    rw [listMean, hlength]
  refine ⟨?_, ?_, ?_⟩
  · simp only [calculateBollinger, hslice, hmean]
  · simp only [calculateBollinger, hslice, hmean, popStdDev, hlength]
    ring
  · simp only [calculateBollinger, hslice, hmean, popStdDev, hlength]
    ring

/-- Witness for `bollinger_amended` on `S = [1, 2, 3]`, `P = 2`. -/
theorem bollinger_amended_witness :
    (1 ≤ 2 ∧ 2 ≤ ([(1 : ℚ), 2, 3] : List ℚ).length) ∧
    ((calculateBollinger [1, 2, 3] 2).middle
        = ((listMean (trailing 2 [1, 2, 3]) : ℚ) : ℝ) ∧
      (calculateBollinger [1, 2, 3] 2).upper
        = (calculateBollinger [1, 2, 3] 2).middle + 2 * popStdDev (trailing 2 [1, 2, 3]) ∧
      (calculateBollinger [1, 2, 3] 2).lower
        = (calculateBollinger [1, 2, 3] 2).middle - 2 * popStdDev (trailing 2 [1, 2, 3])) :=
  ⟨⟨by norm_num, by simp⟩, bollinger_amended [1, 2, 3] 2 (by norm_num) (by simp)⟩

/-- The RSI loop never decreases its gain or loss accumulator. -/
theorem foldl_rsiStep_mono : ∀ (l : List ℚ) (init : ℚ × ℚ),
    init.1 ≤ (l.foldl rsiStep init).1 ∧ init.2 ≤ (l.foldl rsiStep init).2 := by
  intro l
  induction l with
  | nil => intro init; exact ⟨le_rfl, le_rfl⟩
  | cons d xs ih =>
      intro init
      have hstep : init.1 ≤ (rsiStep init d).1 ∧ init.2 ≤ (rsiStep init d).2 := by
        rw [rsiStep]
        split_ifs with hd
        · exact ⟨by simp [hd], by simp⟩
        · push_neg at hd
          exact ⟨by simp, by simp; linarith⟩
      have hrest := ih (rsiStep init d)
      rw [List.foldl_cons]
      exact ⟨hstep.1.trans hrest.1, hstep.2.trans hrest.2⟩

/-- With no negative difference, the RSI loop accumulates no loss. -/
theorem foldl_rsiStep_snd_of_nonneg : ∀ (l : List ℚ), (∀ d ∈ l, 0 ≤ d) →
    ∀ init : ℚ × ℚ, (l.foldl rsiStep init).2 = init.2 := by
  intro l
  induction l with
  | nil => intro _ init; rfl
  | cons d xs ih =>
      intro h init
      rw [List.foldl_cons, ih (fun y hy => h y (List.mem_cons_of_mem _ hy)),
        rsiStep, if_pos (h d (List.mem_cons_self d xs))]

/-- With only negative differences, the RSI loop accumulates no gain,
and a strictly positive loss once the list is non-empty. -/
theorem foldl_rsiStep_of_neg : ∀ (l : List ℚ), (∀ d ∈ l, d < 0) →
    ∀ init : ℚ × ℚ, (l.foldl rsiStep init).1 = init.1 ∧
      (l ≠ [] → init.2 < (l.foldl rsiStep init).2) := by
  intro l
  induction l with
  | nil => intro _ init; exact ⟨rfl, fun hne => absurd rfl hne⟩
  | cons d xs ih =>
      intro h init
      have hd : d < 0 := h d (List.mem_cons_self d xs)
      have hstep : rsiStep init d = (init.1, init.2 - d) := by
        rw [rsiStep, if_neg (not_le.mpr hd)]
      have ihspec := ih (fun y hy => h y (List.mem_cons_of_mem _ hy)) (rsiStep init d)
      constructor
      · rw [List.foldl_cons, ihspec.1, hstep]
      · intro _
        rw [List.foldl_cons]
        have hmono := foldl_rsiStep_mono xs (rsiStep init d)
        have h1 : init.2 < (rsiStep init d).2 := by rw [hstep]; simp; linarith
        exact h1.trans_le hmono.2

/-- A strictly increasing series has strictly positive differences. -/
theorem diffs_pos : ∀ {l : List ℚ}, l.Chain' (· < ·) → ∀ d ∈ diffs l, 0 < d := by
  intro l
  induction l with
  | nil => intro _ d hd; simp [diffs] at hd
  | cons a l ih =>
      cases l with
      | nil => intro _ d hd; simp [diffs] at hd
      | cons b rest =>
          intro hch d hd
          rw [List.chain'_cons] at hch
          simp only [diffs, List.mem_cons] at hd
          rcases hd with h | h
          · subst h; linarith [hch.1]
          · exact ih hch.2 d h

/-- A strictly decreasing series has strictly negative differences. -/
theorem diffs_neg : ∀ {l : List ℚ}, l.Chain' (· > ·) → ∀ d ∈ diffs l, d < 0 := by
  intro l
  induction l with
  | nil => intro _ d hd; simp [diffs] at hd
  | cons a l ih =>
      cases l with
      | nil => intro _ d hd; simp [diffs] at hd
      | cons b rest =>
          intro hch d hd
          rw [List.chain'_cons] at hch
          simp only [diffs, List.mem_cons] at hd
          rcases hd with h | h
          · subst h
            have : b < a := hch.1
            linarith
          · exact ih hch.2 d h

/-- A series of at least two elements has at least one difference. -/
theorem diffs_ne_nil : ∀ {l : List ℚ}, 2 ≤ l.length → diffs l ≠ []
  | _ :: _ :: _, _ => by simp [diffs]
  | [], h => by simp at h
  | [_], h => by simp at h

/-- C4: for every series, `calculateRSI` stays in `[0, 100]`; it is
exactly `50` when the series is shorter than `period + 1`; exactly
`100` when there is no negative difference in the trailing window
(zero average loss); a strictly increasing series longer than `period`
gives exactly `100` and a strictly decreasing one exactly `0`. -/
theorem rsi_properties (period : ℕ) (hp : 0 < period) :
    (∀ data : List ℚ, calculateRSI data period ∈ Set.Icc (0 : ℚ) 100) ∧
    (∀ data : List ℚ, data.length < period + 1 → calculateRSI data period = 50) ∧
    (∀ data : List ℚ, period + 1 ≤ data.length →
      (∀ d ∈ diffs (rsiWindow data period), 0 ≤ d) →
      calculateRSI data period = 100) ∧
    (∀ data : List ℚ, period < data.length → data.Chain' (· < ·) →
      calculateRSI data period = 100) ∧
    (∀ data : List ℚ, period < data.length → data.Chain' (· > ·) →
      calculateRSI data period = 0) := by
  have hpQ : (0 : ℚ) < (period : ℚ) := by exact_mod_cast hp
  have h50 : ∀ data : List ℚ, data.length < period + 1 → calculateRSI data period = 50 := by
    intro data h
    rw [calculateRSI, if_pos h]
  have h100 : ∀ data : List ℚ, period + 1 ≤ data.length →
      (∀ d ∈ diffs (rsiWindow data period), 0 ≤ d) → calculateRSI data period = 100 := by
    intro data hlen hd
    have hsnd : (gainsLosses (diffs (rsiWindow data period))).2 = 0 :=
      foldl_rsiStep_snd_of_nonneg _ hd (0, 0)
    simp only [calculateRSI]
    rw [if_neg (by omega), if_pos (by rw [hsnd, zero_div])]
  have hrange : ∀ data : List ℚ, calculateRSI data period ∈ Set.Icc (0 : ℚ) 100 := by
    intro data
    rw [Set.mem_Icc]
    simp only [calculateRSI]
    split_ifs with h1 h2
    · norm_num
    · norm_num
    · have hmono := foldl_rsiStep_mono (diffs (rsiWindow data period)) (0, 0)
      set gl := gainsLosses (diffs (rsiWindow data period)) with hgl
      have hg : 0 ≤ gl.1 := hmono.1
      have hl : 0 ≤ gl.2 := hmono.2
      have hploss : 0 < gl.2 / (period : ℚ) :=
        lt_of_le_of_ne (div_nonneg hl hpQ.le) (Ne.symm h2)
      have hrs : 0 ≤ gl.1 / (period : ℚ) / (gl.2 / (period : ℚ)) :=
        div_nonneg (div_nonneg hg hpQ.le) hploss.le
      constructor
      · have : 100 / (1 + gl.1 / (period : ℚ) / (gl.2 / (period : ℚ))) ≤ 100 :=
          div_le_self (by norm_num) (by linarith)
        linarith
      · have : 0 < 100 / (1 + gl.1 / (period : ℚ) / (gl.2 / (period : ℚ))) :=
          div_pos (by norm_num) (by linarith)
        linarith
  refine ⟨hrange, h50, h100, ?_, ?_⟩
  · intro data hlen hch
    refine h100 data (by omega) ?_
    intro d hd
    exact (diffs_pos (List.Chain'.drop hch _ :
      (rsiWindow data period).Chain' (· < ·)) d hd).le
  · intro data hlen hch
    have hwlen : (rsiWindow data period).length = period + 1 := by
      rw [rsiWindow, List.length_drop]
      omega
    have hneg : ∀ d ∈ diffs (rsiWindow data period), d < 0 :=
      diffs_neg (List.Chain'.drop hch _ : (rsiWindow data period).Chain' (· > ·))
    have hne : diffs (rsiWindow data period) ≠ [] := diffs_ne_nil (by omega)
    have hfold := foldl_rsiStep_of_neg _ hneg (0, 0)
    have hfst : (gainsLosses (diffs (rsiWindow data period))).1 = 0 := hfold.1
    have hsnd : 0 < (gainsLosses (diffs (rsiWindow data period))).2 := hfold.2 hne
    simp only [calculateRSI]
    rw [if_neg (by omega), if_neg (div_pos hsnd hpQ).ne', hfst]
    norm_num

/-- Witness for `rsi_properties` at the source's default period `14`. -/
theorem rsi_properties_witness :
    0 < 14 ∧
    ((∀ data : List ℚ, calculateRSI data 14 ∈ Set.Icc (0 : ℚ) 100) ∧
      (∀ data : List ℚ, data.length < 14 + 1 → calculateRSI data 14 = 50) ∧
      (∀ data : List ℚ, 14 + 1 ≤ data.length →
        (∀ d ∈ diffs (rsiWindow data 14), 0 ≤ d) → calculateRSI data 14 = 100) ∧
      (∀ data : List ℚ, 14 < data.length → data.Chain' (· < ·) →
        calculateRSI data 14 = 100) ∧
      (∀ data : List ℚ, 14 < data.length → data.Chain' (· > ·) →
        calculateRSI data 14 = 0)) :=
  ⟨by norm_num, rsi_properties 14 (by norm_num)⟩

/-- When every attempt in a block fails, the retry loop issues exactly
the request URLs of attempts `attempt, ..., attempt + fuel - 1` and
fails with the error of the final attempt (or the incoming last error
when no fuel remains). -/
theorem fetchLoop_all_fail (http : String → HttpOutcome) (target : String) :
    ∀ (fuel attempt : ℕ) (last : String),
      (∀ i, attempt ≤ i → i < attempt + fuel →
        ∃ e, tryAttempt http target i = .error e) →
      (fetchLoop http target attempt fuel last).1
        = (List.range' attempt fuel).map (attemptUrl target) ∧
      ((fuel = 0 ∧ (fetchLoop http target attempt fuel last).2 = .error last) ∨
        (∃ e, tryAttempt http target (attempt + fuel - 1) = .error e ∧
          (fetchLoop http target attempt fuel last).2 = .error e)) := by
  intro fuel
  induction fuel with
  | zero => intro attempt last _; exact ⟨rfl, Or.inl ⟨rfl, rfl⟩⟩
  | succ n ih =>
      intro attempt last h
      obtain ⟨e, he⟩ := h attempt le_rfl (by omega)
      have ihspec := ih (attempt + 1) e (fun i hi1 hi2 => h i (by omega) (by omega))
      have hunfold : fetchLoop http target attempt (n + 1) last
          = (attemptUrl target attempt :: (fetchLoop http target (attempt + 1) n e).1,
              (fetchLoop http target (attempt + 1) n e).2) := by
        rw [fetchLoop, he]
      constructor
      · rw [hunfold, List.range'_succ, List.map_cons, ihspec.1]
      · right
        rcases ihspec.2 with ⟨hn, hres⟩ | ⟨e', he', hres⟩
        · subst hn
          exact ⟨e, by simpa using he, by rw [hunfold]; exact hres⟩
        · refine ⟨e', ?_, by rw [hunfold]; exact hres⟩
          have heq : attempt + 1 + n - 1 = attempt + (n + 1) - 1 := by omega
          rw [← heq]
          exact he'

/-- C3: for every path and attempt budget, if every attempt fails then
`fetchWithRetry` issues exactly `maxAttempts + 1` requests -- attempt
`i` through the relay `CORS_PROXIES[i % CORS_PROXIES.length]` (see
`attemptUrl`) -- and then fails with the error of the last attempt,
returning no data. -/
theorem fetcher_exhausts_all_attempts (http : String → HttpOutcome) (path : String)
    (maxAttempts : ℕ)
    (hfail : ∀ i, i ≤ maxAttempts →
      ∃ e, tryAttempt http (OKX_BASE ++ path) i = .error e) :
    (fetchWithRetry http path maxAttempts).1
      = (List.range (maxAttempts + 1)).map (attemptUrl (OKX_BASE ++ path)) ∧
    ∃ e, tryAttempt http (OKX_BASE ++ path) maxAttempts = .error e ∧
      (fetchWithRetry http path maxAttempts).2 = .error e := by
  have hmain := fetchLoop_all_fail http (OKX_BASE ++ path) (maxAttempts + 1) 0 "null"
    (fun i _ hi2 => hfail i (by omega))
  constructor
  · rw [fetchWithRetry, hmain.1, List.range_eq_range']
  · rcases hmain.2 with ⟨hn, _⟩ | ⟨e, he, hres⟩
    · omega
    · exact ⟨e, by simpa using he, hres⟩

/-- Witness for `fetcher_exhausts_all_attempts`: a transport on which
every request fails at the network layer, budget `3`. -/
theorem fetcher_exhausts_witness :
    (∀ i, i ≤ 3 →
      ∃ e, tryAttempt (fun _ => .netFail "down") (OKX_BASE ++ "/ticker") i
        = .error e) ∧
    ((fetchWithRetry (fun _ => .netFail "down") "/ticker" 3).1
        = (List.range 4).map (attemptUrl (OKX_BASE ++ "/ticker")) ∧
      ∃ e, tryAttempt (fun _ => .netFail "down") (OKX_BASE ++ "/ticker") 3
          = .error e ∧
        (fetchWithRetry (fun _ => .netFail "down") "/ticker" 3).2 = .error e) :=
  ⟨fun _ _ => ⟨"down", rfl⟩,
    fetcher_exhausts_all_attempts (fun _ => .netFail "down") "/ticker" 3
      (fun _ _ => ⟨"down", rfl⟩)⟩

/-- A successful candle-fetch loop yields exactly one snapshot per
requested timeframe, in the requested order. -/
theorem buildSnapshots_timeframes (fetchR : String → Except String JsVal) (symbol : String) :
    ∀ (tfs : List String) (l : List MarketSnapshot),
      buildSnapshots fetchR symbol tfs = .ok l →
      l.map (fun s => s.timeframe) = tfs := by
  intro tfs
  induction tfs with
  | nil =>
      intro l h
      rw [buildSnapshots] at h
      cases h
      rfl
  | cons tf rest ih =>
      intro l h
      simp only [buildSnapshots] at h
      split at h
      · exact absurd h (by simp)
      · split at h
        · exact absurd h (by simp)
        · split at h
          · exact absurd h (by simp)
          · rename_i restSnaps hrest
            cases h
            simp only [List.map_cons]
            rw [ih restSnaps hrest]
      · exact absurd h (by simp)

/-- C2: `getFullMarketSnapshot` is all-or-nothing -- every execution
either propagates an error (the first sub-fetch failure aborts the
cycle; no partial aggregate reaches the caller) or returns a complete
aggregate with exactly one snapshot per configured timeframe
`["15m", "1h", "4h", "1d"]`, in that order. -/
theorem snapshot_all_or_nothing (fetchR : String → Except String JsVal)
    (symbol : String) (now : ℤ) :
    (∃ e, getFullMarketSnapshot fetchR symbol now = .error e) ∨
    (∃ agg, getFullMarketSnapshot fetchR symbol now = .ok agg ∧
      agg.snapshots.map (fun s => s.timeframe) = ["15m", "1h", "4h", "1d"]) := by
  cases hb : buildSnapshots fetchR symbol ["15m", "1h", "4h", "1d"] with
  | error e => exact Or.inl ⟨e, by simp only [getFullMarketSnapshot, hb]⟩
  | ok snaps =>
      have hmap := buildSnapshots_timeframes fetchR symbol _ snaps hb
      cases hbk : fetchR ("/books?instId=" ++ symbol ++ "&sz=20") with
      | error e => exact Or.inl ⟨e, by simp only [getFullMarketSnapshot, hb, hbk]⟩
      | ok books =>
          cases htk : fetchR ("/ticker?instId=" ++ symbol) with
          | error e =>
              exact Or.inl ⟨e, by simp only [getFullMarketSnapshot, hb, hbk, htk]⟩
          | ok tickerArr =>
              cases jt : jsIndex tickerArr 0 with
              | undefined =>
                  exact Or.inl ⟨_, by simp only [getFullMarketSnapshot, hb, hbk, htk, jt]; rfl⟩
              | num q =>
                  exact Or.inr
                    ⟨_, by simp only [getFullMarketSnapshot, hb, hbk, htk, jt]; rfl, hmap⟩
              | str s =>
                  exact Or.inr
                    ⟨_, by simp only [getFullMarketSnapshot, hb, hbk, htk, jt]; rfl, hmap⟩
              | arr elems =>
                  exact Or.inr
                    ⟨_, by simp only [getFullMarketSnapshot, hb, hbk, htk, jt]; rfl, hmap⟩
              | obj fields =>
                  exact Or.inr
                    ⟨_, by simp only [getFullMarketSnapshot, hb, hbk, htk, jt]; rfl, hmap⟩

end FutureTool
